import Mathlib

/-!
# Verification of the TUDataset coverage-verification pipeline

Shallow embedding of `filter_covered_commits.py`: the result accumulator
(`DynamicSaver.append_result`), the coverage interpreter
(`parse_method_id`, `java_type_to_descriptor`, `params_to_desc_prefix`,
`check_jacoco_coverage`), the per-commit verifier (`process_single_commit`)
and the batch driver (`main`'s per-project loop with `ProgressTracker`).

External collaborators (git, maven, the filesystem) are abstracted by a
`World` of oracles giving each external call's outcome, and every external
invocation is recorded in an event trace, so that claims about "no external
command is executed" and about the order of phases are statable.

String operations from the Python source (`split`, `rstrip`, `strip`,
`replace`, `startswith`) are implemented here by structural recursion on
character lists so that every definition evaluates inside the kernel.
-/

namespace TUData

/-! ## String helpers mirroring the Python operations -/

/-- Python `s.rstrip(')')`: remove every trailing `')'`. -/
def rstripRParen (s : String) : String :=
  String.mk ((s.toList.reverse.dropWhile (fun c => c = ')')).reverse)

/-- Python `s.split(sep)` for a single-character separator, on char lists:
always returns at least one (possibly empty) piece. -/
def splitCharList (sep : Char) : List Char → List (List Char)
  | [] => [[]]
  | c :: cs =>
    let r := splitCharList sep cs
    if c = sep then [] :: r
    else
      match r with
      | [] => [[c]]
      | h :: t => (c :: h) :: t

/-- Python `s.split(sep)` for a single-character separator. -/
def splitOnChar (sep : Char) (s : String) : List String :=
  (splitCharList sep s.toList).map String.mk

/-- Python `s.strip()` (for the ASCII whitespace the inputs contain). -/
def pyStrip (s : String) : String :=
  String.mk (((s.toList.dropWhile Char.isWhitespace).reverse.dropWhile
      Char.isWhitespace).reverse)

/-- Python `s.replace('.', '/')` (single-character replacement). -/
def dotToSlash (s : String) : String :=
  String.mk (s.toList.map (fun c => if c = '.' then '/' else c))

/-- Python `s.startswith(p)`. -/
def strStartsWith (s pfxStr : String) : Bool :=
  pfxStr.toList.isPrefixOf s.toList

/-- Python `''.join(parts)`. -/
def concatAll (parts : List String) : String :=
  parts.foldl (fun a b => a ++ b) ""

/-- Python `'.'.join(parts)` restricted to what `splitAtLastDot` needs:
rebuild `s[:last]` from the pieces before the last dot. -/
def splitAtLastDot (s : String) : Option (String × String) :=
  let rcs := s.toList.reverse
  let mrev := rcs.takeWhile (fun c => c ≠ '.')
  match rcs.dropWhile (fun c => c ≠ '.') with
  | '.' :: crev => some (String.mk crev.reverse, String.mk mrev.reverse)
  | _ => none

/-! ## `parse_method_id` (lines 141-153)

`method_part = method_id.split('(')[0]` and
`params_str = method_id.split('(')[1].rstrip(')')`; the `[1]` raises
`IndexError` when the identifier contains no `'('` — modelled as
`Except.error`.  An identifier whose part before `'('` contains no dot is
reported with `(None, None, None)` — modelled as `Except.ok none`. -/
def parseMethodId (mid : String) : Except String (Option (String × String × String)) :=
  match splitOnChar '(' mid with
  | p0 :: p1 :: _ =>
    let paramsStr := rstripRParen p1
    match splitAtLastDot p0 with
    | some (cls, mname) => Except.ok (some (cls, mname, paramsStr))
    | none => Except.ok none
  | _ => Except.error "IndexError: list index out of range"

/-! ## `java_type_to_descriptor` (lines 114-131) -/

def java_type_to_descriptor (jt : String) : String :=
  let t := pyStrip jt
  if t = "boolean" then "Z"
  else if t = "byte" then "B"
  else if t = "char" then "C"
  else if t = "double" then "D"
  else if t = "float" then "F"
  else if t = "int" then "I"
  else if t = "long" then "J"
  else if t = "short" then "S"
  else if t = "void" then "V"
  else "L" ++ dotToSlash t ++ ";"

/-! ## `params_to_desc_prefix` (lines 133-139); the source name ends in a
word this development cannot use as a suffix, hence the `_pfx` spelling. -/

def params_to_desc_pfx (ps : String) : String :=
  if ps = "" then "()"
  else "(" ++ concatAll ((splitOnChar ',' ps).map (fun p => java_type_to_descriptor (pyStrip p))) ++ ")"

/-- Line 261: `params_prefix = params_to_desc_prefix(params_str) if params_str else ''` —
the prefix actually used for descriptor matching. -/
def usedPfx (ps : String) : String :=
  if ps = "" then "" else params_to_desc_pfx ps

/-! ## JaCoCo report model

`check_jacoco_coverage` reads, from the parsed XML: every descendant
`class` element in document order (`root.findall('.//class')`, flattened
here into one list), each class's `name` attribute, its child `method`
elements with `name` and `desc` (default `''`) attributes, and each
method's **first** `counter` child (`method.find('counter')`) with its
`type` and `covered` (default 0) attributes. -/

structure JCounter where
  ctype : String
  covered : Int
deriving DecidableEq

structure JMethod where
  name : String
  desc : String
  counters : List JCounter
deriving DecidableEq

structure JClass where
  name : String
  methods : List JMethod
deriving DecidableEq

abbrev Report := List JClass

/-- Lines 279-287: `method.find('counter')` is the first counter child; the
method counts as covered only when that first counter has
`type == 'INSTRUCTION'` and `covered > 0`. -/
def firstCounterInstrCovered (jm : JMethod) : Bool :=
  match jm.counters.head? with
  | some cnt => cnt.ctype == "INSTRUCTION" && decide (0 < cnt.covered)
  | none => false

/-- Lines 273-287: a method entry qualifies when its name matches exactly,
its descriptor starts with the computed parameter prefix, and its first
counter is an INSTRUCTION counter with positive covered count. -/
def methodEntryCovered (pfxStr m : String) (jm : JMethod) : Bool :=
  jm.name == m && strStartsWith jm.desc pfxStr && firstCounterInstrCovered jm

/-- Lines 262-288: find the first class whose `name` equals the dot-to-slash
class name (the loop `break`s on the first name match, whether or not a
method qualifies inside it), then scan its method entries. -/
def classMethodCovered (r : Report) (cls m ps : String) : Bool :=
  match r.find? (fun jc => jc.name == dotToSlash cls) with
  | some jc => jc.methods.any (methodEntryCovered (usedPfx ps) m)
  | none => false

/-- The per-candidate loop of `check_jacoco_coverage` (lines 255-292),
run inside the function's single `try`: a candidate whose
`parse_method_id` raises aborts the whole loop (`Except.error`), a
candidate parsed as `(None, None, None)` or with an empty class or method
name is skipped, and otherwise the candidate is kept iff it is covered. -/
def coverLoop (r : Report) : List String → Except String (List String)
  | [] => Except.ok []
  | f :: rest =>
    match parseMethodId f with
    | Except.error e => Except.error e
    | Except.ok none => coverLoop r rest
    | Except.ok (some (cls, m, ps)) =>
      if cls = "" ∨ m = "" then coverLoop r rest
      else
        match coverLoop r rest with
        | Except.error e => Except.error e
        | Except.ok l => Except.ok (if classMethodCovered r cls m ps then f :: l else l)

/-- `check_jacoco_coverage` (lines 241-301). `none` stands for a missing
report file or a report the XML parser rejects (both yield `[]`); the
`except` at lines 297-301 turns any exception raised while scanning the
candidates into `[]`, discarding candidates already found covered. -/
def check_jacoco_coverage (rep : Option Report) (focals : List String) : List String :=
  match rep with
  | none => []
  | some r =>
    match coverLoop r focals with
    | Except.ok l => l
    | Except.error _ => []

/-! ## `VerificationResult` records

The dictionaries persisted by `process_single_commit`.  Failure records
(lines 604-610, 624-630, 678-684) carry a `reason` key; the exception
record (lines 704-710) carries an `error_message` key instead; the success
record (lines 690-695) carries neither. -/

structure VResult where
  commit : String
  new_pairs : List (String × String)
  old_pairs : List (String × String)
  status : String
  reason : Option String
  error_message : Option String
deriving DecidableEq

def failedResult (sha why : String) : VResult :=
  ⟨sha, [], [], "failed", some why, none⟩

def successResult (sha : String) (np op : List (String × String)) : VResult :=
  ⟨sha, np, op, "success", none, none⟩

def errorResult (sha msg : String) : VResult :=
  ⟨sha, [], [], "error", none, some msg⟩

/-! ## `DynamicSaver.append_result` (lines 72-112)

The upsert over the persisted collection: scan for the first record with
the same commit id, replace it in place, else append at the end. -/

def append_result : List VResult → VResult → List VResult
  | [], r => [r]
  | x :: xs, r => if x.commit = r.commit then r :: xs else x :: append_result xs r

/-! ## Commit descriptors and the external world -/

/-- One entry of the valid-commits work list: `commit.sha1`,
`focal_methods.{new,old}`, `test_methods.{new,old}` (lines 509-519). -/
structure CommitInfo where
  sha1 : String
  focal_new : List String
  focal_old : List String
  test_new : List String
  test_old : List String
deriving DecidableEq

/-- Every external invocation `process_single_commit` performs, in order:
`run_command` calls (git reset, mvn clean, mvn test, the `git show` inside
`get_commit_info`), the `shutil.rmtree` of `target/site`, and the three
pom.xml rewrites (`configure_jacoco_in_pom`, `modify_java_version`,
`modify_parent_version`). -/
inductive Event where
  | gitResetHard (target : String)
  | mvnClean
  | mvnTest (testClass testMethod : String)
  | gitShowPrev
  | rmSiteDir
  | configJacoco
  | setJavaVersion
  | stripParentSnapshot
deriving DecidableEq

/-- The environment-preparation calls issued after each checkout
(lines 552-554 and 638-640). -/
def pomEvents : List Event :=
  [Event.configJacoco, Event.setJavaVersion, Event.stripParentSnapshot]

/-- Oracles for the outcomes of the external collaborators.  `run_command`
and the pom rewriters catch their own exceptions and return booleans, so
they are modelled as total oracles; the coverage report present at
`target/site/jacoco/jacoco.xml` after running a given test is an
`Option Report` (`none` = missing or unparseable). -/
structure World where
  resetNewOk : Bool
  resetOldOk : Bool
  newTestOk : String → Bool
  oldTestOk : String → Bool
  newReport : String → Option Report
  oldReport : String → Option Report

/-- The new-revision test loop (lines 559-596): per test method, run
`mvn clean`, parse the test id (an id without `'('` raises out of the
loop), skip unparseable ids, remove `target/site`, run the single test
(skipping it on failure), and query the coverage interpreter against the
new focal set.  Returns the events, the accumulated (test, focal) pairs,
and `some msg` when an exception escaped the loop. -/
def newLoop (w : World) (focals : List String) :
    List String → List Event × List (String × String) × Option String
  | [] => ([], [], none)
  | t :: rest =>
    match parseMethodId t with
    | Except.error e => ([Event.mvnClean], [], some e)
    | Except.ok none =>
      let r := newLoop w focals rest
      (Event.mvnClean :: r.1, r.2.1, r.2.2)
    | Except.ok (some (tc, tm, _)) =>
      if tc = "" ∨ tm = "" then
        let r := newLoop w focals rest
        (Event.mvnClean :: r.1, r.2.1, r.2.2)
      else
        if w.newTestOk t then
          let covered := check_jacoco_coverage (w.newReport t) focals
          let r := newLoop w focals rest
          (Event.mvnClean :: Event.rmSiteDir :: Event.mvnTest tc tm :: r.1,
           covered.map (fun f => (t, f)) ++ r.2.1, r.2.2)
        else
          let r := newLoop w focals rest
          (Event.mvnClean :: Event.rmSiteDir :: Event.mvnTest tc tm :: r.1, r.2.1, r.2.2)

/-- The old-revision test loop (lines 645-669): same shape but with no
per-test `mvn clean` and no `rmtree`. -/
def oldLoop (w : World) (focals : List String) :
    List String → List Event × List (String × String) × Option String
  | [] => ([], [], none)
  | t :: rest =>
    match parseMethodId t with
    | Except.error e => ([], [], some e)
    | Except.ok none => oldLoop w focals rest
    | Except.ok (some (tc, tm, _)) =>
      if tc = "" ∨ tm = "" then oldLoop w focals rest
      else
        if w.oldTestOk t then
          let covered := check_jacoco_coverage (w.oldReport t) focals
          let r := oldLoop w focals rest
          (Event.mvnTest tc tm :: r.1, covered.map (fun f => (t, f)) ++ r.2.1, r.2.2)
        else
          let r := oldLoop w focals rest
          (Event.mvnTest tc tm :: r.1, r.2.1, r.2.2)

/-- Events of the whole successful-prefix trace up to the end of the old
loop (the trace common to every branch past the old checkout). -/
def fullTrace (w : World) (ci : CommitInfo) : List Event :=
  Event.gitResetHard ci.sha1 :: pomEvents
    ++ (newLoop w ci.focal_new ci.test_new).1
    ++ [Event.gitShowPrev, Event.gitResetHard (ci.sha1 ++ "~1")]
    ++ Event.mvnClean :: pomEvents
    ++ (oldLoop w ci.focal_old ci.test_old).1

/-- The `try` region of `process_single_commit` (lines 536-697):
`Except.error msg` means an exception reached the `except` handler.  The
returned triple is (outcome, events so far, results persisted so far).
The initial-checkout failure (lines 540-544) returns `False` without
persisting anything. -/
def processTry (w : World) (ci : CommitInfo) :
    Except String Bool × List Event × List VResult :=
  if w.resetNewOk = false then
    (Except.ok false, [Event.gitResetHard ci.sha1], [])
  else
    match (newLoop w ci.focal_new ci.test_new).2.2 with
    | some e =>
      (Except.error e,
       Event.gitResetHard ci.sha1 :: pomEvents ++ (newLoop w ci.focal_new ci.test_new).1, [])
    | none =>
      if (newLoop w ci.focal_new ci.test_new).2.1.length < 2 then
        (Except.ok false,
         Event.gitResetHard ci.sha1 :: pomEvents ++ (newLoop w ci.focal_new ci.test_new).1,
         [failedResult ci.sha1 "new_coverage_less_than_2"])
      else
        if w.resetOldOk = false then
          (Except.ok false,
           Event.gitResetHard ci.sha1 :: pomEvents ++ (newLoop w ci.focal_new ci.test_new).1
             ++ [Event.gitShowPrev, Event.gitResetHard (ci.sha1 ++ "~1")],
           [failedResult ci.sha1 "failed_to_switch_to_prev_commit"])
        else
          match (oldLoop w ci.focal_old ci.test_old).2.2 with
          | some e => (Except.error e, fullTrace w ci, [])
          | none =>
            if (oldLoop w ci.focal_old ci.test_old).2.1.length < 2 then
              (Except.ok false, fullTrace w ci,
               [failedResult ci.sha1 "old_coverage_less_than_2"])
            else
              (Except.ok true, fullTrace w ci,
               [successResult ci.sha1 (newLoop w ci.focal_new ci.test_new).2.1
                 (oldLoop w ci.focal_old ci.test_old).2.1])

/-! ## Progress records and `process_single_commit` -/

/-- The per-project progress record (`ProgressTracker`, lines 32-41);
wall-clock timestamp fields are omitted. -/
structure Progress where
  project_name : String
  status : String
  processed_commits : List String
  current_index : Nat
  total_commits : Nat
  successful_commits : Nat
deriving DecidableEq

/-- `ProgressTracker.is_commit_processed` (lines 56-59) over the record the
driver persisted last. -/
def is_commit_processed (p : Progress) (sha : String) : Bool :=
  p.processed_commits.contains sha

/-- `process_single_commit` (lines 507-712): skip already-processed commits
(lines 512-514, before anything else), apply the admission filter
(line 528), then run the `try` region, whose escaped exception is caught
at lines 699-712 and persisted as an `error` record.  Returns the boolean
result, the external-event trace, and the results persisted via
`dynamic_saver.append_result`, in order. -/
def admissionReject (ci : CommitInfo) : Bool :=
  decide (40 ≤ ci.test_new.length) || decide (40 ≤ ci.focal_new.length) ||
  decide (40 ≤ ci.test_old.length) || decide (40 ≤ ci.focal_old.length) ||
  decide (ci.test_old.length = 0) || decide (ci.test_new.length = 0) ||
  decide (ci.focal_new.length = 0) || decide (ci.focal_old.length = 0)

def process_single_commit (w : World) (p : Progress) (ci : CommitInfo) :
    Bool × List Event × List VResult :=
  if is_commit_processed p ci.sha1 then (true, [], [])
  else if admissionReject ci then (false, [], [])
  else
    match processTry w ci with
    | (Except.ok b, evs, saved) => (b, evs, saved)
    | (Except.error e, evs, saved) => (false, evs, saved ++ [errorResult ci.sha1 e])

/-! ## The batch driver (`main`, lines 714-838) -/

/-- One iteration of the commit loop (lines 791-816): persist the cursor
set to `k` (`savedBefore`), process the commit against that just-persisted
record, bump the success counter when the call returned `True`, append the
sha to `processed_commits`, and persist again (`savedAfter`). -/
structure StepInfo where
  idx : Nat
  savedBefore : Progress
  events : List Event
  savedResults : List VResult
  savedAfter : Progress
deriving DecidableEq

def driverStep (w : World) (p : Progress) (k : Nat) (ci : CommitInfo) :
    Progress × StepInfo :=
  let p1 := { p with current_index := k }
  let r := process_single_commit w p1 ci
  let p2 := if r.1 then { p1 with successful_commits := p1.successful_commits + 1 } else p1
  let p3 := { p2 with processed_commits := p2.processed_commits ++ [ci.sha1] }
  (p3, ⟨k, p1, r.2.1, r.2.2, p3⟩)

/-- The loop `for commit_idx in range(start_index, total_commits)`,
structurally recursive on the number of remaining indices. -/
def runFromAux (w : World) (commits : List CommitInfo) :
    Nat → Progress → Nat → Progress × List StepInfo
  | 0, p, _ => (p, [])
  | fuel + 1, p, k =>
    match commits[k]? with
    | none => (p, [])
    | some ci =>
      let s := driverStep w p k ci
      let r := runFromAux w commits fuel s.1 (k + 1)
      (r.1, s.2 :: r.2)

def runFrom (w : World) (commits : List CommitInfo) (p : Progress) (k : Nat) :
    Progress × List StepInfo :=
  runFromAux w commits (commits.length - k) p k

/-- Fresh progress record for a project first seen (lines 765-775). -/
def initProgress (name : String) (total : Nat) : Progress :=
  ⟨name, "running", [], 0, total, 0⟩

/-- One project's portion of `main` (lines 760-830): reinitialize a
`not_started` record, resume from the persisted cursor, and finalize the
status to `completed`. -/
def mainProject (w : World) (commits : List CommitInfo) (loaded : Progress) :
    Progress × List StepInfo :=
  let p := if loaded.status = "not_started"
           then initProgress loaded.project_name commits.length
           else loaded
  let r := runFrom w commits p p.current_index
  ({ r.1 with status := "completed" }, r.2)

/-! ## Theorems -/

/-! ### C1 — upsert semantics of `append_result` -/

theorem c1_aux_same (l : List VResult) (r1 r2 : VResult) (hc : r1.commit = r2.commit) :
    append_result (append_result l r1) r2 = append_result l r2 := by
  induction l with
  | nil =>
    simp only [append_result]
    rw [if_pos hc]
  | cons x xs ih =>
    by_cases hx : x.commit = r1.commit
    · simp only [append_result, if_pos hx, if_pos (hx.trans hc), if_pos hc]
    · have hx2 : x.commit ≠ r2.commit := fun h => hx (h.trans hc.symm)
      simp only [append_result, if_neg hx, if_neg hx2]
      rw [ih]

theorem c1_aux_len (l : List VResult) (r1 r2 : VResult) (hc : r1.commit = r2.commit) :
    (append_result l r1).length = (append_result l r2).length := by
  induction l with
  | nil => simp [append_result]
  | cons x xs ih =>
    by_cases hx : x.commit = r1.commit
    · simp [append_result, if_pos hx, if_pos (hx.trans hc)]
    · have hx2 : x.commit ≠ r2.commit := fun h => hx (h.trans hc.symm)
      simp [append_result, if_neg hx, if_neg hx2, ih]

theorem c1_aux_app (l : List VResult) (r : VResult) (h : ∀ x ∈ l, x.commit ≠ r.commit) :
    append_result l r = l ++ [r] := by
  induction l with
  | nil => simp [append_result]
  | cons x xs ih =>
    have hx : x.commit ≠ r.commit := h x (by simp)
    simp only [append_result, if_neg hx, List.cons_append]
    rw [ih (fun y hy => h y (by simp [hy]))]

theorem c1_aux_mem (l : List VResult) (r : VResult) (c : String)
    (h : c ∈ (append_result l r).map (fun v => v.commit)) :
    c ∈ l.map (fun v => v.commit) ∨ c = r.commit := by
  induction l with
  | nil =>
    simp [append_result] at h
    exact Or.inr h
  | cons x xs ih =>
    by_cases hx : x.commit = r.commit
    · simp only [append_result, if_pos hx, List.map_cons, List.mem_cons] at h
      rcases h with h | h
      · exact Or.inr h
      · exact Or.inl (by simp [h])
    · simp only [append_result, if_neg hx, List.map_cons, List.mem_cons] at h
      rcases h with h | h
      · exact Or.inl (by simp [h])
      · rcases ih h with h2 | h2
        · exact Or.inl (by simp only [List.map_cons, List.mem_cons]; exact Or.inr h2)
        · exact Or.inr h2

theorem c1_aux_nodup (l : List VResult) (r : VResult)
    (h : (l.map (fun v => v.commit)).Nodup) :
    ((append_result l r).map (fun v => v.commit)).Nodup := by
  induction l with
  | nil => simp [append_result]
  | cons x xs ih =>
    simp only [List.map_cons, List.nodup_cons] at h
    by_cases hx : x.commit = r.commit
    · simp only [append_result, if_pos hx, List.map_cons, List.nodup_cons]
      exact ⟨hx ▸ h.1, h.2⟩
    · simp only [append_result, if_neg hx, List.map_cons, List.nodup_cons]
      refine ⟨fun hm => ?_, ih h.2⟩
      rcases c1_aux_mem xs r x.commit hm with h2 | h2
      · exact h.1 h2
      · exact hx h2

/-- Claim C1: `append_result` is an upsert keyed by commit id — appending two
results with the same commit id leaves the length unchanged, with the second
replacing the first at its position; a result whose commit id is absent is
appended at the end; and the collection never acquires two entries with the
same commit id. -/
theorem c1_append_result_upsert (l : List VResult) (r1 r2 r : VResult)
    (hc : r1.commit = r2.commit) :
    (append_result (append_result l r1) r2).length = (append_result l r1).length ∧
    append_result (append_result l r1) r2 = append_result l r2 ∧
    ((∀ x ∈ l, x.commit ≠ r.commit) → append_result l r = l ++ [r]) ∧
    ((l.map (fun v => v.commit)).Nodup →
      ((append_result l r).map (fun v => v.commit)).Nodup) := by
  refine ⟨?_, c1_aux_same l r1 r2 hc, c1_aux_app l r, c1_aux_nodup l r⟩
  rw [c1_aux_same l r1 r2 hc]
  exact (c1_aux_len l r1 r2 hc).symm

def c1l : List VResult := [⟨"a", [], [], "success", none, none⟩]

def c1r1 : VResult := ⟨"c", [("t", "f")], [], "success", none, none⟩

def c1r2 : VResult := ⟨"c", [], [], "failed", some "new_coverage_less_than_2", none⟩

def c1r3 : VResult := ⟨"d", [], [], "failed", some "old_coverage_less_than_2", none⟩

theorem c1_append_result_upsert_witness :
    (append_result (append_result c1l c1r1) c1r2).length = (append_result c1l c1r1).length ∧
    append_result (append_result c1l c1r1) c1r2 = append_result c1l c1r2 ∧
    ((∀ x ∈ c1l, x.commit ≠ c1r3.commit) → append_result c1l c1r3 = c1l ++ [c1r3]) ∧
    ((c1l.map (fun v => v.commit)).Nodup →
      ((append_result c1l c1r3).map (fun v => v.commit)).Nodup) :=
  c1_append_result_upsert c1l c1r1 c1r2 c1r3 rfl

/-! ### C5 — descriptor conversion and the prefix actually used -/

/-- Claim C5, corrected: for a nonempty parameter string the matching prefix
is `'('` + the concatenated JVM type codes + `')'` (so
`"int,java.lang.String"` gives `"(ILjava/lang/String;)"`), and
`params_to_desc_prefix` itself maps `""` to `"()"`; but the prefix *used for
descriptor matching* on an empty parameter list is `""` (line 261), not
`"()"`. -/
theorem c5_desc_conversion :
    (∀ ps : String, ps ≠ "" →
      usedPfx ps = "(" ++ concatAll ((splitOnChar ',' ps).map
        (fun p => java_type_to_descriptor (pyStrip p))) ++ ")") ∧
    usedPfx "" = "" ∧
    params_to_desc_pfx "" = "()" ∧
    params_to_desc_pfx "int,java.lang.String" = "(ILjava/lang/String;)" ∧
    java_type_to_descriptor "int" = "I" ∧
    java_type_to_descriptor "java.lang.String" = "Ljava/lang/String;" := by
  refine ⟨fun ps h => ?_, by decide, by decide, by decide, by decide, by decide⟩
  unfold usedPfx params_to_desc_pfx
  rw [if_neg h, if_neg h]

theorem c5_desc_conversion_witness :
    usedPfx "int" = "(" ++ concatAll ((splitOnChar ',' "int").map
      (fun p => java_type_to_descriptor (pyStrip p))) ++ ")" :=
  c5_desc_conversion.1 "int" (by decide)

def c5Report : Report := [⟨"a", [⟨"b", "(I)V", [⟨"INSTRUCTION", 5⟩]⟩]⟩]

/-- Claim C5 counterexample: the prefix used for descriptor matching on an
empty parameter list is `""`, not the claimed `"()"`; consequently the query
`a.b()` matches a method whose descriptor `"(I)V"` does not start with
`"()"`. -/
theorem c5_counterexample :
    usedPfx "" = "" ∧ ("" : String) ≠ "()" ∧
    check_jacoco_coverage (some c5Report) ["a.b()"] = ["a.b()"] ∧
    strStartsWith "(I)V" "()" = false := by decide

/-! ### C4 — coverage matching policy -/

theorem firstCounter_iff (jm : JMethod) :
    firstCounterInstrCovered jm = true ↔
      ∃ cnt, jm.counters.head? = some cnt ∧ cnt.ctype = "INSTRUCTION" ∧ 0 < cnt.covered := by
  unfold firstCounterInstrCovered
  cases h : jm.counters.head? with
  | none => simp
  | some cnt => simp [Bool.and_eq_true, beq_iff_eq, decide_eq_true_iff]

/-- The matching condition of the (corrected) claim C4, stated over the
report structure: first class entry with the exact internal name, containing
a method entry with the exact name, a descriptor starting with the computed
prefix, and a **first** counter child of type INSTRUCTION with positive
covered count. -/
def specCoveredCond (r : Report) (cls m ps : String) : Prop :=
  ∃ jc, r.find? (fun c0 => c0.name == dotToSlash cls) = some jc ∧
    ∃ jm ∈ jc.methods, jm.name = m ∧ strStartsWith jm.desc (usedPfx ps) = true ∧
      ∃ cnt, jm.counters.head? = some cnt ∧ cnt.ctype = "INSTRUCTION" ∧ 0 < cnt.covered

theorem classMethodCovered_iff (r : Report) (cls m ps : String) :
    classMethodCovered r cls m ps = true ↔ specCoveredCond r cls m ps := by
  unfold classMethodCovered specCoveredCond
  cases hfind : r.find? (fun jc => jc.name == dotToSlash cls) with
  | none => simp
  | some jc =>
    simp only [List.any_eq_true, Option.some.injEq]
    constructor
    · rintro ⟨jm, hjm, hcv⟩
      refine ⟨jc, rfl, jm, hjm, ?_⟩
      unfold methodEntryCovered at hcv
      simp only [Bool.and_eq_true, beq_iff_eq] at hcv
      exact ⟨hcv.1.1, hcv.1.2, (firstCounter_iff jm).1 hcv.2⟩
    · rintro ⟨jc2, hjc2, jm, hjm, h1, h2, h3⟩
      cases hjc2
      refine ⟨jm, hjm, ?_⟩
      unfold methodEntryCovered
      simp only [Bool.and_eq_true, beq_iff_eq]
      exact ⟨⟨h1, h2⟩, (firstCounter_iff jm).2 h3⟩

/-- Claim C4, corrected: a parseable candidate with nonempty class and method
parts is reported covered iff the first class entry matching its dot-to-slash
class name contains a method entry whose name matches exactly, whose
descriptor starts with the computed parameter prefix, and whose **first**
counter child has type INSTRUCTION with covered > 0 (counters after the first
are never examined). -/
theorem c4_coverage_matching (r : Report) (cand cls m ps : String)
    (hp : parseMethodId cand = Except.ok (some (cls, m, ps)))
    (hc : cls ≠ "") (hm : m ≠ "") :
    (cand ∈ check_jacoco_coverage (some r) [cand] ↔ specCoveredCond r cls m ps) := by
  have hres : check_jacoco_coverage (some r) [cand] =
      if classMethodCovered r cls m ps then [cand] else [] := by
    unfold check_jacoco_coverage
    simp only [coverLoop, hp]
    rw [if_neg (by simp [hc, hm])]
  rw [hres, ← classMethodCovered_iff]
  cases hcov : classMethodCovered r cls m ps <;> simp [hcov]

def c4Method : JMethod := ⟨"bar", "(I)V", [⟨"LINE", 0⟩, ⟨"INSTRUCTION", 5⟩]⟩

def c4Class : JClass := ⟨"com/example/Foo", [c4Method]⟩

def c4Report : Report := [c4Class]

/-- Claim C4 counterexample: the report holds a class entry named exactly
`com/example/Foo` with a method entry `bar` whose descriptor starts with the
computed prefix and whose INSTRUCTION counter has covered = 5, yet the
candidate is not reported covered, because the method's *first* counter
(LINE) is the only one examined. -/
theorem c4_counterexample :
    check_jacoco_coverage (some c4Report) ["com.example.Foo.bar(int)"] = [] ∧
    ∃ jc ∈ c4Report, jc.name = dotToSlash "com.example.Foo" ∧
      ∃ jm ∈ jc.methods, jm.name = "bar" ∧ strStartsWith jm.desc (usedPfx "int") = true ∧
        ∃ cnt ∈ jm.counters, cnt.ctype = "INSTRUCTION" ∧ 0 < cnt.covered := by
  refine ⟨by decide, c4Class, by decide, by decide, c4Method, by decide, by decide, by decide,
    ⟨"INSTRUCTION", 5⟩, by decide, by decide, by decide⟩

theorem c4_coverage_matching_witness :
    ("com.example.Foo.bar(int)" ∈
        check_jacoco_coverage (some c4Report) ["com.example.Foo.bar(int)"] ↔
      specCoveredCond c4Report "com.example.Foo" "bar" "int") :=
  c4_coverage_matching c4Report "com.example.Foo.bar(int)" "com.example.Foo" "bar" "int"
    rfl (by decide) (by decide)

/-! ### C9 — parse-failure tolerance of the coverage interpreter -/

theorem coverLoop_skip (r : Report) (bad : String)
    (hskip : parseMethodId bad = Except.ok none) (pre post : List String) :
    coverLoop r (pre ++ bad :: post) = coverLoop r (pre ++ post) := by
  induction pre with
  | nil => simp only [List.nil_append, coverLoop, hskip]
  | cons a pre ih =>
    have ih2 : coverLoop r (pre.append (bad :: post)) = coverLoop r (pre.append post) := ih
    simp only [List.cons_append, coverLoop]
    rw [ih2]

theorem coverLoop_raises (r : Report) (bad2 e : String)
    (herr : parseMethodId bad2 = Except.error e) (pre post : List String) :
    ∃ e2, coverLoop r (pre ++ bad2 :: post) = Except.error e2 := by
  induction pre with
  | nil => exact ⟨e, by simp only [List.nil_append, coverLoop, herr]⟩
  | cons a pre ih =>
    obtain ⟨e2, he2⟩ := ih
    cases hpa : parseMethodId a with
    | error e3 =>
      exact ⟨e3, by simp only [List.cons_append, coverLoop, hpa]⟩
    | ok o =>
      cases o with
      | none =>
        refine ⟨e2, ?_⟩
        simp only [List.cons_append, coverLoop, hpa]
        exact he2
      | some triple =>
        obtain ⟨cls, m, ps⟩ := triple
        have he3 : coverLoop r (pre.append (bad2 :: post)) = Except.error e2 := he2
        by_cases hcm : cls = "" ∨ m = ""
        · refine ⟨e2, ?_⟩
          simp only [List.cons_append, coverLoop, hpa, if_pos hcm]
          exact he2
        · refine ⟨e2, ?_⟩
          simp only [List.cons_append, coverLoop, hpa, if_neg hcm]
          rw [he3]

/-- Claim C9, corrected: a missing or unparseable report yields `[]`; a
candidate parsed to `(None, None, None)` (a class-separator-free identifier
that still contains `'('`) is skipped with all other candidates' results
intact; but a candidate with no `'('` raises inside the loop, and the
interpreter boundary turns that into an empty overall result, discarding
every candidate's result; no exception escapes. -/
theorem c9_parse_failure_tolerance (r : Report) (fs pre post : List String)
    (bad bad2 e : String)
    (hskip : parseMethodId bad = Except.ok none)
    (herr : parseMethodId bad2 = Except.error e) :
    check_jacoco_coverage none fs = [] ∧
    check_jacoco_coverage (some r) (pre ++ bad :: post) =
      check_jacoco_coverage (some r) (pre ++ post) ∧
    check_jacoco_coverage (some r) (pre ++ bad2 :: post) = [] := by
  have hsome : ∀ (gs : List String), check_jacoco_coverage (some r) gs =
      match coverLoop r gs with
      | Except.ok l => l
      | Except.error _ => [] := fun _ => rfl
  refine ⟨rfl, ?_, ?_⟩
  · rw [hsome, hsome, coverLoop_skip r bad hskip pre post]
  · obtain ⟨e2, he2⟩ := coverLoop_raises r bad2 e herr pre post
    rw [hsome, he2]

def c9Report : Report :=
  [⟨"a", [⟨"b", "(I)V", [⟨"INSTRUCTION", 5⟩]⟩]⟩,
   ⟨"c", [⟨"d", "(I)V", [⟨"INSTRUCTION", 2⟩]⟩]⟩]

/-- Claim C9 counterexample: both `a.b(int)` and `c.d(int)` are covered when
queried alone, but a query containing the unparseable `noparen` between them
returns `[]` — the earlier candidate's result is not retained and the later
candidate is never processed. -/
theorem c9_counterexample :
    check_jacoco_coverage (some c9Report) ["a.b(int)"] = ["a.b(int)"] ∧
    check_jacoco_coverage (some c9Report) ["c.d(int)"] = ["c.d(int)"] ∧
    check_jacoco_coverage (some c9Report) ["a.b(int)", "noparen", "c.d(int)"] = [] := by
  decide

/-! ### Helper lemmas about `processTry` and `process_single_commit` -/

theorem processTry_noReset (w : World) (ci : CommitInfo) (h : w.resetNewOk = false) :
    processTry w ci = (Except.ok false, [Event.gitResetHard ci.sha1], []) := by
  unfold processTry
  rw [if_pos h]

theorem processTry_shape (w : World) (ci : CommitInfo) (h : w.resetNewOk = true) :
    ((processTry w ci).2.2.length = 1 ∧ (∃ b, (processTry w ci).1 = Except.ok b) ∧
      ∀ r ∈ (processTry w ci).2.2, r.commit = ci.sha1) ∨
    ((processTry w ci).2.2 = [] ∧ ∃ e, (processTry w ci).1 = Except.error e) := by
  unfold processTry
  rw [if_neg (by simp [h])]
  cases hn : (newLoop w ci.focal_new ci.test_new).2.2 with
  | some e =>
    exact Or.inr ⟨rfl, e, rfl⟩
  | none =>
    by_cases h2 : (newLoop w ci.focal_new ci.test_new).2.1.length < 2
    · rw [if_pos h2]
      exact Or.inl ⟨rfl, ⟨false, rfl⟩, by simp [failedResult]⟩
    · rw [if_neg h2]
      by_cases h3 : w.resetOldOk = false
      · rw [if_pos h3]
        exact Or.inl ⟨rfl, ⟨false, rfl⟩, by simp [failedResult]⟩
      · rw [if_neg h3]
        cases ho : (oldLoop w ci.focal_old ci.test_old).2.2 with
        | some e =>
          exact Or.inr ⟨rfl, e, rfl⟩
        | none =>
          by_cases h4 : (oldLoop w ci.focal_old ci.test_old).2.1.length < 2
          · rw [if_pos h4]
            exact Or.inl ⟨rfl, ⟨false, rfl⟩, by simp [failedResult]⟩
          · rw [if_neg h4]
            exact Or.inl ⟨rfl, ⟨true, rfl⟩, by simp [successResult]⟩

theorem psc_of_ok (w : World) (p : Progress) (ci : CommitInfo) (b : Bool)
    (h1 : is_commit_processed p ci.sha1 = false)
    (h2 : admissionReject ci = false)
    (hok : (processTry w ci).1 = Except.ok b) :
    process_single_commit w p ci = (b, (processTry w ci).2.1, (processTry w ci).2.2) := by
  unfold process_single_commit
  simp only [h1, h2, Bool.false_eq_true, if_false]
  rcases hmk : processTry w ci with ⟨res, evs, saved⟩
  rw [hmk] at hok
  change res = Except.ok b at hok
  subst hok
  rfl

theorem psc_of_err (w : World) (p : Progress) (ci : CommitInfo) (e : String)
    (h1 : is_commit_processed p ci.sha1 = false)
    (h2 : admissionReject ci = false)
    (herr : (processTry w ci).1 = Except.error e) :
    process_single_commit w p ci =
      (false, (processTry w ci).2.1, (processTry w ci).2.2 ++ [errorResult ci.sha1 e]) := by
  unfold process_single_commit
  simp only [h1, h2, Bool.false_eq_true, if_false]
  rcases hmk : processTry w ci with ⟨res, evs, saved⟩
  rw [hmk] at herr
  change res = Except.error e at herr
  subst herr
  rfl

/-! ### C6 — admission filter -/

/-- Claim C6, corrected: a commit whose identifier is not yet recorded as
processed, and in which any of the four method sets has 40 or more entries
or is empty, is rejected with result `False`, an empty external-command
trace, and no persisted result; an *already-processed* commit, however, is
reported successful before the admission filter runs. -/
theorem c6_admission_filter (w : World) (p : Progress) (ci : CommitInfo)
    (h1 : is_commit_processed p ci.sha1 = false)
    (h2 : 40 ≤ ci.test_new.length ∨ 40 ≤ ci.focal_new.length ∨ 40 ≤ ci.test_old.length ∨
      40 ≤ ci.focal_old.length ∨ ci.test_new.length = 0 ∨ ci.focal_new.length = 0 ∨
      ci.test_old.length = 0 ∨ ci.focal_old.length = 0) :
    process_single_commit w p ci = (false, [], []) := by
  have hr : admissionReject ci = true := by
    simp only [admissionReject, Bool.or_eq_true, decide_eq_true_eq]
    tauto
  simp [process_single_commit, h1, hr]

def c6W : World := ⟨true, true, fun _ => true, fun _ => true, fun _ => none, fun _ => none⟩

def c6P : Progress := ⟨"proj", "running", [], 0, 1, 0⟩

def c6CI : CommitInfo := ⟨"c6", ["a.f()"], ["a.f()"], List.replicate 41 "a.t()", ["a.t()"]⟩

theorem c6_admission_filter_witness :
    process_single_commit c6W c6P c6CI = (false, [], []) :=
  c6_admission_filter c6W c6P c6CI (by decide) (Or.inl (by decide))

def c6Pdone : Progress := ⟨"proj", "running", ["c6"], 0, 1, 0⟩

/-- Claim C6 counterexample: a commit with 41 new test methods whose sha is
already in `processed_commits` is reported *successful* (return `True`), not
failed — the already-processed check at line 512 runs before the admission
filter at line 528. -/
theorem c6_counterexample :
    40 ≤ c6CI.test_new.length ∧
    (process_single_commit c6W c6Pdone c6CI).1 = true := by decide

/-! ### C8 — exactly-one-result-per-invocation -/

/-- Claim C8, corrected: an invocation persists exactly one result iff the
commit is not already processed, passes the admission filter, and the
initial checkout succeeds; admission rejection, the already-processed skip,
and an initial-checkout failure persist nothing.  Every persisted result
carries the commit's identifier (the upsert key). -/
theorem c8_exactly_one_result (w : World) (p : Progress) (ci : CommitInfo) :
    ((process_single_commit w p ci).2.2.length = 1 ↔
      (is_commit_processed p ci.sha1 = false ∧ admissionReject ci = false ∧
        w.resetNewOk = true)) ∧
    ∀ r ∈ (process_single_commit w p ci).2.2, r.commit = ci.sha1 := by
  by_cases h1 : is_commit_processed p ci.sha1
  · constructor
    · simp [process_single_commit, h1]
    · simp [process_single_commit, h1]
  · have h1f : is_commit_processed p ci.sha1 = false := by
      revert h1; cases is_commit_processed p ci.sha1 <;> simp
    by_cases h2 : admissionReject ci
    · constructor
      · simp [process_single_commit, h1f, h2]
      · simp [process_single_commit, h1f, h2]
    · have h2f : admissionReject ci = false := by
        revert h2; cases admissionReject ci <;> simp
      by_cases h3 : w.resetNewOk = true
      · rcases processTry_shape w ci h3 with ⟨hlen, ⟨b, hok⟩, hcom⟩ | ⟨hnil, e, herr⟩
        · rw [psc_of_ok w p ci b h1f h2f hok]
          constructor
          · simp only [hlen]
            simp [h1f, h2f, h3]
          · exact hcom
        · rw [psc_of_err w p ci e h1f h2f herr, hnil]
          constructor
          · simp [h1f, h2f, h3]
          · simp [errorResult]
      · have h3f : w.resetNewOk = false := by
          revert h3; cases w.resetNewOk <;> simp
        rw [psc_of_ok w p ci false h1f h2f (by rw [processTry_noReset w ci h3f])]
        rw [processTry_noReset w ci h3f]
        constructor
        · simp [h3f]
        · simp

def c8CI : CommitInfo := ⟨"c8", ["a.f()"], ["a.f()"], ["a.t()"], []⟩

/-- Claim C8 counterexample: an admission-rejected commit (empty old test
set), not previously processed, persists *no* `VerificationResult` at all,
contradicting "exactly one record regardless of the outcome". -/
theorem c8_counterexample :
    is_commit_processed c6P c8CI.sha1 = false ∧
    (process_single_commit c6W c6P c8CI).2.2 = [] := by decide

theorem c8_exactly_one_result_witness :
    (((process_single_commit c6W c6P c6CI).2.2.length = 1 ↔
      (is_commit_processed c6P c6CI.sha1 = false ∧ admissionReject c6CI = false ∧
        c6W.resetNewOk = true)) ∧
    ∀ r ∈ (process_single_commit c6W c6P c6CI).2.2, r.commit = c6CI.sha1) :=
  c8_exactly_one_result c6W c6P c6CI

theorem c9_parse_failure_tolerance_witness :
    check_jacoco_coverage none ["z"] = [] ∧
    check_jacoco_coverage (some c9Report) (["a.b(int)"] ++ "nodot(" :: ["c.d(int)"]) =
      check_jacoco_coverage (some c9Report) (["a.b(int)"] ++ ["c.d(int)"]) ∧
    check_jacoco_coverage (some c9Report) (["a.b(int)"] ++ "noparen" :: ["c.d(int)"]) = [] :=
  c9_parse_failure_tolerance c9Report ["z"] ["a.b(int)"] ["c.d(int)"] "nodot(" "noparen"
    "IndexError: list index out of range" rfl rfl

/-! ### Driver lemmas shared by C3, C7 and C10 -/

theorem driverStep_fields (w : World) (p : Progress) (k : Nat) (ci : CommitInfo) :
    (driverStep w p k ci).2.idx = k ∧
    (driverStep w p k ci).2.savedBefore.current_index = k ∧
    (driverStep w p k ci).2.savedAfter.current_index = k := by
  cases hr : (process_single_commit w { p with current_index := k } ci).1 <;>
    simp [driverStep, hr]

theorem runFromAux_map_idx (w : World) (commits : List CommitInfo) :
    ∀ fuel : Nat, ∀ (k : Nat) (p : Progress), fuel ≤ commits.length - k →
      ((runFromAux w commits fuel p k).2.map StepInfo.idx) = List.range' k fuel := by
  intro fuel
  induction fuel with
  | zero => intro k p _; rfl
  | succ n ih =>
    intro k p h
    have hk : k < commits.length := by omega
    have hci : commits[k]? = some commits[k] := List.getElem?_eq_getElem hk
    simp only [runFromAux, hci, List.map_cons]
    rw [ih (k + 1) _ (by omega), List.range'_succ,
      (driverStep_fields w p k commits[k]).1]

theorem runFrom_map_idx (w : World) (commits : List CommitInfo) (p : Progress) (k : Nat) :
    ((runFrom w commits p k).2.map StepInfo.idx) = List.range' k (commits.length - k) :=
  runFromAux_map_idx w commits (commits.length - k) k p (Nat.le_refl _)

theorem runFromAux_steps (w : World) (commits : List CommitInfo) :
    ∀ fuel : Nat, ∀ (k : Nat) (p : Progress) (s : StepInfo),
      s ∈ (runFromAux w commits fuel p k).2 →
      s.savedBefore.current_index = s.idx ∧ s.savedAfter.current_index = s.idx ∧ k ≤ s.idx := by
  intro fuel
  induction fuel with
  | zero =>
    intro k p s hs
    simp [runFromAux] at hs
  | succ n ih =>
    intro k p s hs
    cases hci : commits[k]? with
    | none => simp [runFromAux, hci] at hs
    | some ci =>
      simp only [runFromAux, hci, List.mem_cons] at hs
      rcases hs with hs | hs
      · subst hs
        obtain ⟨hidx, hbef, haft⟩ := driverStep_fields w p k ci
        exact ⟨hbef.trans hidx.symm, haft.trans hidx.symm, le_of_eq hidx.symm⟩
      · obtain ⟨hb, ha, hk⟩ := ih (k + 1) _ s hs
        exact ⟨hb, ha, by omega⟩

theorem runFrom_steps (w : World) (commits : List CommitInfo) (p : Progress) (k : Nat)
    (s : StepInfo) (hs : s ∈ (runFrom w commits p k).2) :
    s.savedBefore.current_index = s.idx ∧ s.savedAfter.current_index = s.idx ∧ k ≤ s.idx :=
  runFromAux_steps w commits (commits.length - k) k p s hs

theorem steps_cursor_bind (steps : List StepInfo)
    (h : ∀ s ∈ steps,
      s.savedBefore.current_index = s.idx ∧ s.savedAfter.current_index = s.idx) :
    (steps.flatMap (fun s => [s.savedBefore.current_index, s.savedAfter.current_index])) =
      ((steps.map StepInfo.idx).flatMap (fun i => [i, i])) := by
  induction steps with
  | nil => rfl
  | cons a l ih =>
    obtain ⟨ha1, ha2⟩ := h a (List.mem_cons_self a l)
    simp only [List.flatMap_cons, List.map_cons, ha1, ha2]
    rw [ih (fun s hs => h s (List.mem_cons_of_mem a hs))]

theorem chain_le_dup (n : Nat) : ∀ k : Nat,
    List.Chain' (fun a b => a ≤ b) ((List.range' k n).flatMap (fun i => [i, i])) := by
  induction n with
  | zero => intro k; simp
  | succ m ih =>
    intro k
    rw [List.range'_succ]
    simp only [List.flatMap_cons, List.cons_append, List.nil_append]
    rw [List.chain'_cons]
    refine ⟨Nat.le_refl k, ?_⟩
    cases m with
    | zero => simp
    | succ m2 =>
      rw [List.range'_succ]
      simp only [List.flatMap_cons, List.cons_append, List.nil_append]
      rw [List.chain'_cons]
      refine ⟨Nat.le_succ k, ?_⟩
      have hrec := ih (k + 1)
      rw [List.range'_succ] at hrec
      simp only [List.flatMap_cons, List.cons_append, List.nil_append] at hrec
      exact hrec

/-! ### C3 — checkpoint-cursor discipline of the batch driver -/

/-- Claim C3: the batch driver persists the cursor set to each commit's
index before the commit is attempted (`savedBefore`) and again after it
completes (`savedAfter`), resumes exactly at the persisted cursor (indices
below it are never re-executed), and the sequence of persisted cursor
values within a run is non-decreasing. -/
theorem c3_cursor_discipline (w : World) (commits : List CommitInfo) (loaded : Progress)
    (h : loaded.status ≠ "not_started") :
    ((mainProject w commits loaded).2.map StepInfo.idx) =
      List.range' loaded.current_index (commits.length - loaded.current_index) ∧
    (∀ s ∈ (mainProject w commits loaded).2,
      s.savedBefore.current_index = s.idx ∧ s.savedAfter.current_index = s.idx) ∧
    (∀ s ∈ (mainProject w commits loaded).2, loaded.current_index ≤ s.idx) ∧
    List.Chain' (fun a b => a ≤ b)
      ((mainProject w commits loaded).2.flatMap
        (fun s => [s.savedBefore.current_index, s.savedAfter.current_index])) := by
  have hmp : (mainProject w commits loaded).2 =
      (runFrom w commits loaded loaded.current_index).2 := by
    simp only [mainProject]
    rw [if_neg h]
  refine ⟨?_, ?_, ?_, ?_⟩
  · rw [hmp, runFrom_map_idx]
  · rw [hmp]
    intro s hs
    exact ⟨(runFrom_steps w commits loaded _ s hs).1, (runFrom_steps w commits loaded _ s hs).2.1⟩
  · rw [hmp]
    intro s hs
    exact (runFrom_steps w commits loaded _ s hs).2.2
  · rw [hmp]
    rw [steps_cursor_bind _ (fun s hs => ⟨(runFrom_steps w commits loaded _ s hs).1,
        (runFrom_steps w commits loaded _ s hs).2.1⟩)]
    rw [runFrom_map_idx]
    exact chain_le_dup _ _

def c3W : World := ⟨false, false, fun _ => false, fun _ => false, fun _ => none, fun _ => none⟩

def c3Commits : List CommitInfo :=
  [⟨"s1", ["a.f()"], ["a.f()"], ["a.t()"], ["a.t()"]⟩,
   ⟨"s2", ["a.f()"], ["a.f()"], ["a.t()"], ["a.t()"]⟩,
   ⟨"s3", ["a.f()"], ["a.f()"], ["a.t()"], ["a.t()"]⟩]

def c3Loaded : Progress := ⟨"proj", "running", ["s1"], 1, 3, 1⟩

theorem c3_cursor_discipline_witness :
    ((mainProject c3W c3Commits c3Loaded).2.map StepInfo.idx) =
      List.range' c3Loaded.current_index (c3Commits.length - c3Loaded.current_index) ∧
    (∀ s ∈ (mainProject c3W c3Commits c3Loaded).2,
      s.savedBefore.current_index = s.idx ∧ s.savedAfter.current_index = s.idx) ∧
    (∀ s ∈ (mainProject c3W c3Commits c3Loaded).2, c3Loaded.current_index ≤ s.idx) ∧
    List.Chain' (fun a b => a ≤ b)
      ((mainProject c3W c3Commits c3Loaded).2.flatMap
        (fun s => [s.savedBefore.current_index, s.savedAfter.current_index])) :=
  c3_cursor_discipline c3W c3Commits c3Loaded (by decide)

/-! ### C10 — duplicate accounting of already-processed commits -/

/-- Claim C10: a commit whose identifier is already in `processed_commits`
short-circuits to success with no external command and no persisted result;
the driver then increments `successful_commits` and appends the identifier
again, so the processed list holds the identifier at least twice and the
success counter over-counts. -/
theorem c10_reprocessed_duplicates (w : World) (p : Progress) (k : Nat) (ci : CommitInfo)
    (hin : ci.sha1 ∈ p.processed_commits) :
    process_single_commit w { p with current_index := k } ci = (true, [], []) ∧
    (driverStep w p k ci).1.successful_commits = p.successful_commits + 1 ∧
    (driverStep w p k ci).1.processed_commits = p.processed_commits ++ [ci.sha1] ∧
    2 ≤ (driverStep w p k ci).1.processed_commits.count ci.sha1 := by
  have hproc : is_commit_processed { p with current_index := k } ci.sha1 = true :=
    List.elem_eq_true_of_mem hin
  have hpsc : process_single_commit w { p with current_index := k } ci = (true, [], []) := by
    simp [process_single_commit, hproc]
  have hstep : (driverStep w p k ci).1.processed_commits = p.processed_commits ++ [ci.sha1] := by
    simp [driverStep, hpsc]
  refine ⟨hpsc, ?_, hstep, ?_⟩
  · simp [driverStep, hpsc]
  · rw [hstep, List.count_append]
    have hpos : 0 < p.processed_commits.count ci.sha1 := List.count_pos_iff.2 hin
    have hone : ([ci.sha1].count ci.sha1) = 1 := by simp
    omega

def c10P : Progress := ⟨"proj", "running", ["x"], 0, 1, 1⟩

def c10CI : CommitInfo := ⟨"x", ["a.f()"], ["a.f()"], ["a.t()"], ["a.t()"]⟩

theorem c10_reprocessed_duplicates_witness :
    process_single_commit c6W { c10P with current_index := 0 } c10CI = (true, [], []) ∧
    (driverStep c6W c10P 0 c10CI).1.successful_commits = c10P.successful_commits + 1 ∧
    (driverStep c6W c10P 0 c10CI).1.processed_commits = c10P.processed_commits ++ [c10CI.sha1] ∧
    2 ≤ (driverStep c6W c10P 0 c10CI).1.processed_commits.count c10CI.sha1 :=
  c10_reprocessed_duplicates c6W c10P 0 c10CI (by decide)

/-! ### C7 — exception containment at the commit boundary -/

/-- Claim C7: any exception escaping the try region of the verification
sequence is caught at the commit boundary: the call returns `False`
normally, persists exactly one record with status `error` carrying the
exception text, and the driver loop still visits every remaining work-item
index. -/
theorem c7_exception_caught (w : World) (p : Progress) (ci : CommitInfo) (msg : String)
    (h1 : is_commit_processed p ci.sha1 = false)
    (h2 : admissionReject ci = false)
    (h3 : (processTry w ci).1 = Except.error msg) :
    (process_single_commit w p ci).1 = false ∧
    (process_single_commit w p ci).2.2 = [errorResult ci.sha1 msg] ∧
    errorResult ci.sha1 msg = ⟨ci.sha1, [], [], "error", none, some msg⟩ ∧
    (∀ (commits : List CommitInfo) (p0 : Progress) (k : Nat),
      ((runFrom w commits p0 k).2.map StepInfo.idx) =
        List.range' k (commits.length - k)) := by
  have h4 : w.resetNewOk = true := by
    cases hb : w.resetNewOk with
    | true => rfl
    | false =>
      rw [processTry_noReset w ci hb] at h3
      exact absurd h3 (by simp)
  have hnil : (processTry w ci).2.2 = [] := by
    rcases processTry_shape w ci h4 with ⟨_, ⟨b, hok⟩, _⟩ | ⟨hnil, _⟩
    · rw [hok] at h3
      exact absurd h3 (by simp)
    · exact hnil
  have hm := psc_of_err w p ci msg h1 h2 h3
  rw [hnil] at hm
  exact ⟨by rw [hm], by rw [hm]; rfl, rfl, fun commits p0 k => runFrom_map_idx w commits p0 k⟩

def c7CI : CommitInfo := ⟨"c7", ["a.f()"], ["a.f()"], ["noparen"], ["a.t()"]⟩

theorem c7_exception_caught_witness :
    (process_single_commit c6W c6P c7CI).1 = false ∧
    (process_single_commit c6W c6P c7CI).2.2 =
      [errorResult c7CI.sha1 "IndexError: list index out of range"] ∧
    errorResult c7CI.sha1 "IndexError: list index out of range" =
      ⟨c7CI.sha1, [], [], "error", none, some "IndexError: list index out of range"⟩ ∧
    (∀ (commits : List CommitInfo) (p0 : Progress) (k : Nat),
      ((runFrom c6W commits p0 k).2.map StepInfo.idx) =
        List.range' k (commits.length - k)) :=
  c7_exception_caught c6W c6P c7CI "IndexError: list index out of range"
    (by decide) (by decide) rfl

/-! ### C2 — threshold gates end-to-end -/

/-- Claim C2: for a commit that reaches the new-revision phase, fewer than 2
observed new pairs terminates the commit before any old-revision work and
persists a failed record with reason `new_coverage_less_than_2` and empty
pair lists; at least 2 new and at least 2 old pairs persist a success record
carrying exactly the observed pair tuples; fewer than 2 old pairs persists a
failed record with reason `old_coverage_less_than_2` and empty pair lists. -/
theorem c2_threshold_gates (w : World) (p : Progress) (ci : CommitInfo)
    (h1 : is_commit_processed p ci.sha1 = false)
    (h2 : admissionReject ci = false)
    (h3 : w.resetNewOk = true)
    (hnx : (newLoop w ci.focal_new ci.test_new).2.2 = none) :
    ((newLoop w ci.focal_new ci.test_new).2.1.length < 2 →
      process_single_commit w p ci =
        (false,
         Event.gitResetHard ci.sha1 :: pomEvents ++ (newLoop w ci.focal_new ci.test_new).1,
         [failedResult ci.sha1 "new_coverage_less_than_2"])) ∧
    (2 ≤ (newLoop w ci.focal_new ci.test_new).2.1.length → w.resetOldOk = true →
      (oldLoop w ci.focal_old ci.test_old).2.2 = none →
      2 ≤ (oldLoop w ci.focal_old ci.test_old).2.1.length →
      (process_single_commit w p ci).1 = true ∧
      (process_single_commit w p ci).2.2 =
        [successResult ci.sha1 (newLoop w ci.focal_new ci.test_new).2.1
          (oldLoop w ci.focal_old ci.test_old).2.1]) ∧
    (2 ≤ (newLoop w ci.focal_new ci.test_new).2.1.length → w.resetOldOk = true →
      (oldLoop w ci.focal_old ci.test_old).2.2 = none →
      (oldLoop w ci.focal_old ci.test_old).2.1.length < 2 →
      (process_single_commit w p ci).1 = false ∧
      (process_single_commit w p ci).2.2 =
        [failedResult ci.sha1 "old_coverage_less_than_2"]) := by
  refine ⟨?_, ?_, ?_⟩
  · intro hlt
    have hpt : processTry w ci = (Except.ok false,
        Event.gitResetHard ci.sha1 :: pomEvents ++ (newLoop w ci.focal_new ci.test_new).1,
        [failedResult ci.sha1 "new_coverage_less_than_2"]) := by
      unfold processTry
      rw [if_neg (by simp [h3])]
      simp only [hnx]
      rw [if_pos hlt]
    rw [psc_of_ok w p ci false h1 h2 (by rw [hpt]), hpt]
  · intro hge hold hoe hge2
    have hpt : processTry w ci = (Except.ok true, fullTrace w ci,
        [successResult ci.sha1 (newLoop w ci.focal_new ci.test_new).2.1
          (oldLoop w ci.focal_old ci.test_old).2.1]) := by
      unfold processTry
      rw [if_neg (by simp [h3])]
      simp only [hnx]
      rw [if_neg (by omega), if_neg (by simp [hold])]
      simp only [hoe]
      rw [if_neg (by omega)]
    have hm := psc_of_ok w p ci true h1 h2 (by rw [hpt])
    rw [hm, hpt]
    exact ⟨rfl, rfl⟩
  · intro hge hold hoe hlt2
    have hpt : processTry w ci = (Except.ok false, fullTrace w ci,
        [failedResult ci.sha1 "old_coverage_less_than_2"]) := by
      unfold processTry
      rw [if_neg (by simp [h3])]
      simp only [hnx]
      rw [if_neg (by omega), if_neg (by simp [hold])]
      simp only [hoe]
      rw [if_pos hlt2]
    have hm := psc_of_ok w p ci false h1 h2 (by rw [hpt])
    rw [hm, hpt]
    exact ⟨rfl, rfl⟩

def c2Report : Report :=
  [⟨"p/C", [⟨"f", "()V", [⟨"INSTRUCTION", 3⟩]⟩, ⟨"g", "()V", [⟨"INSTRUCTION", 3⟩]⟩]⟩]

def c2W : World :=
  ⟨true, true, fun _ => true, fun _ => true, fun _ => some c2Report, fun _ => some c2Report⟩

def c2CI : CommitInfo :=
  ⟨"c2", ["p.C.f()", "p.C.g()"], ["p.C.f()", "p.C.g()"], ["p.T.t1()"], ["p.T.t2()"]⟩

theorem c2_threshold_gates_witness :
    ((newLoop c2W c2CI.focal_new c2CI.test_new).2.1.length < 2 →
      process_single_commit c2W c6P c2CI =
        (false,
         Event.gitResetHard c2CI.sha1 :: pomEvents ++ (newLoop c2W c2CI.focal_new c2CI.test_new).1,
         [failedResult c2CI.sha1 "new_coverage_less_than_2"])) ∧
    (2 ≤ (newLoop c2W c2CI.focal_new c2CI.test_new).2.1.length → c2W.resetOldOk = true →
      (oldLoop c2W c2CI.focal_old c2CI.test_old).2.2 = none →
      2 ≤ (oldLoop c2W c2CI.focal_old c2CI.test_old).2.1.length →
      (process_single_commit c2W c6P c2CI).1 = true ∧
      (process_single_commit c2W c6P c2CI).2.2 =
        [successResult c2CI.sha1 (newLoop c2W c2CI.focal_new c2CI.test_new).2.1
          (oldLoop c2W c2CI.focal_old c2CI.test_old).2.1]) ∧
    (2 ≤ (newLoop c2W c2CI.focal_new c2CI.test_new).2.1.length → c2W.resetOldOk = true →
      (oldLoop c2W c2CI.focal_old c2CI.test_old).2.2 = none →
      (oldLoop c2W c2CI.focal_old c2CI.test_old).2.1.length < 2 →
      (process_single_commit c2W c6P c2CI).1 = false ∧
      (process_single_commit c2W c6P c2CI).2.2 =
        [failedResult c2CI.sha1 "old_coverage_less_than_2"]) :=
  c2_threshold_gates c2W c6P c2CI (by decide) (by decide) rfl rfl

end TUData
